import Mathlib

/-!
Verification of the backup version & key store of `src/client_server/backup.rs`
(room-key backup routes of a Matrix homeserver).

The route handlers are translated directly from `src/client_server/backup.rs`.
The `key_backups` service they call (`Database::key_backups`, implemented in
`src/database/key_backups.rs`) is not part of the excerpt, so its operations
are modelled from the spec (sections 3 and 4); each such definition carries a
doc comment starting with `Modelled from the spec:`.
-/

namespace Backup

/-- Error kinds surfaced by the routes, mirroring the `ErrorKind` values used
in `src/client_server/backup.rs` (`invalidParam`, `notFound`) plus the
`bad_database` style failure raised when a stored etag is missing. -/
inductive Err
  | invalidParam
  | notFound
  | badDatabase
deriving DecidableEq

/-- Identity of one stored backup key: (user, version, room, session). -/
structure KeyId where
  user : String
  version : Nat
  room : String
  session : String
deriving DecidableEq

/-- Modelled from the spec: the state of the `key_backups` service
(`src/database/key_backups.rs`, absent from the excerpt): the algorithm blob
and etag per (user, version), the key payloads per (user, version, room,
session), and the global monotonic counter used to mint fresh version ids and
etags (spec section 3, `version_id` and `etag`). -/
structure KeyBackups where
  algorithms : List ((String × Nat) × String)
  etags : List ((String × Nat) × Nat)
  keys : List (KeyId × String)
  count : Nat
deriving DecidableEq

/-- Association-list lookup by key. -/
def alLookup {α β : Type} [DecidableEq α] (k : α) : List (α × β) → Option β
  | [] => none
  | p :: l => if p.1 = k then some p.2 else alLookup k l

/-- Remove every binding of key `k`. -/
def alErase {α β : Type} [DecidableEq α] (k : α) (l : List (α × β)) : List (α × β) :=
  l.filter (fun p => decide (p.1 ≠ k))

/-- Insert or overwrite the binding of key `k`. -/
def alInsert {α β : Type} [DecidableEq α] (k : α) (x : β) (l : List (α × β)) : List (α × β) :=
  (k, x) :: alErase k l

/-- Modelled from the spec: `create_backup` allocates a new strictly greater
version id from the global counter, stores the algorithm and a fresh etag, and
makes the new version the latest (spec section 4.1, `create`). -/
def create_backup (s : KeyBackups) (u : String) (alg : String) : Nat × KeyBackups :=
  let v := s.count + 1
  (v, { algorithms := alInsert (u, v) alg s.algorithms
        etags := alInsert (u, v) v s.etags
        keys := s.keys
        count := v })

/-- The version ids currently stored for user `u`. -/
def userVersions (s : KeyBackups) (u : String) : List Nat :=
  (s.algorithms.filter (fun q => decide (q.1.1 = u))).map (fun q => q.1.2)

/-- Greatest element of a list of naturals, if any. -/
def maxVersion : List Nat → Option Nat
  | [] => none
  | a :: l =>
    match maxVersion l with
    | none => some a
    | some m => some (if a ≤ m then m else a)

/-- Modelled from the spec: `get_latest_backup_version` returns the most
recently created surviving version id for the user, or none (spec section
4.1, `latest`; ids are minted by a monotonic counter, so the most recently
created surviving version is the greatest one). -/
def get_latest_backup_version (s : KeyBackups) (u : String) : Option Nat :=
  maxVersion (userVersions s u)

/-- Modelled from the spec: `get_backup` returns the stored algorithm of the
version, or none if absent (spec section 4.1, `get`). -/
def get_backup (s : KeyBackups) (u : String) (v : Nat) : Option String :=
  alLookup (u, v) s.algorithms

/-- Modelled from the spec: `get_etag` returns the version's current etag
(spec section 4.1, `etag`). -/
def get_etag (s : KeyBackups) (u : String) (v : Nat) : Option Nat :=
  alLookup (u, v) s.etags

/-- Modelled from the spec: `get_latest_backup` returns the latest version id
together with its algorithm (spec section 4.1, `latest` combined with `get`). -/
def get_latest_backup (s : KeyBackups) (u : String) : Option (Nat × String) :=
  match get_latest_backup_version s u with
  | none => none
  | some v =>
    match get_backup s u v with
    | none => none
    | some a => some (v, a)

/-- Modelled from the spec: `update_backup` fails with `NotFound` if the
version does not exist, otherwise replaces the algorithm and advances the
etag; it does not require the version to be the latest (spec section 4.1,
`update`). -/
def update_backup (s : KeyBackups) (u : String) (v : Nat) (alg : String) :
    Except Err KeyBackups :=
  match alLookup (u, v) s.algorithms with
  | none => Except.error Err.notFound
  | some _ =>
    Except.ok { s with algorithms := alInsert (u, v) alg s.algorithms
                       etags := alInsert (u, v) (s.count + 1) s.etags
                       count := s.count + 1 }

/-- The entries of the key store belonging to (user `u`, version `v`). -/
def keyPred (u : String) (v : Nat) (p : KeyId × String) : Bool :=
  decide (p.1.user = u ∧ p.1.version = v)

/-- Modelled from the spec: `count_keys` is the number of distinct (room,
session) pairs currently stored under the version (spec section 4.2,
`count`). -/
def count_keys (s : KeyBackups) (u : String) (v : Nat) : Nat :=
  (s.keys.filter (keyPred u v)).length

/-- The (room, session) pairs stored under (user `u`, version `v`). -/
def sessionPairs (s : KeyBackups) (u : String) (v : Nat) : List (String × String) :=
  (s.keys.filter (keyPred u v)).map (fun p => (p.1.room, p.1.session))

/-- Modelled from the spec: `get_all` returns every key of the version as a
(possibly empty) mapping; the Rust code groups the entries per room, which is
a presentational regrouping of the same entries (spec section 4.2,
`get_all`). -/
def get_all (s : KeyBackups) (u : String) (v : Nat) : List ((String × String) × String) :=
  (s.keys.filter (keyPred u v)).map (fun p => ((p.1.room, p.1.session), p.2))

/-- Modelled from the spec: `get_room` returns the (possibly empty) mapping
from session id to payload for one room (spec section 4.2, `get_room`). -/
def get_room (s : KeyBackups) (u : String) (v : Nat) (r : String) : List (String × String) :=
  (s.keys.filter (fun p => decide (p.1.user = u ∧ p.1.version = v ∧ p.1.room = r))).map
    (fun p => (p.1.session, p.2))

/-- Modelled from the spec: `get_session` returns the payload of one session,
or none (spec section 4.2, `get_one`). -/
def get_session (s : KeyBackups) (u : String) (v : Nat) (r : String) (sess : String) :
    Option String :=
  alLookup ⟨u, v, r, sess⟩ s.keys

/-- Modelled from the spec: `add_key` inserts or overwrites one session's
payload and advances the version's etag (spec sections 4.2 `put` and 4.3,
`a mutation ⇒ a different etag on next read`). -/
def add_key (s : KeyBackups) (u : String) (v : Nat) (r : String) (sess : String)
    (d : String) : KeyBackups :=
  { s with keys := alInsert ⟨u, v, r, sess⟩ d s.keys
           etags := alInsert (u, v) (s.count + 1) s.etags
           count := s.count + 1 }

/-- Modelled from the spec: `delete_room_key` removes one session's payload
(idempotent) and advances the version's etag (spec section 4.2,
`delete_one`). -/
def delete_room_key (s : KeyBackups) (u : String) (v : Nat) (r : String) (sess : String) :
    KeyBackups :=
  { s with keys := alErase (⟨u, v, r, sess⟩ : KeyId) s.keys
           etags := alInsert (u, v) (s.count + 1) s.etags
           count := s.count + 1 }

/-- Modelled from the spec: `delete_room_keys` removes every key of one room
(idempotent) and advances the version's etag (spec section 4.2,
`delete_room`). -/
def delete_room_keys (s : KeyBackups) (u : String) (v : Nat) (r : String) : KeyBackups :=
  { s with keys := s.keys.filter
             (fun p => !(decide (p.1.user = u ∧ p.1.version = v ∧ p.1.room = r)))
           etags := alInsert (u, v) (s.count + 1) s.etags
           count := s.count + 1 }

/-- Modelled from the spec: `delete_all_keys` removes every key of the version
(idempotent) and advances the version's etag (spec section 4.2,
`delete_all`). -/
def delete_all_keys (s : KeyBackups) (u : String) (v : Nat) : KeyBackups :=
  { s with keys := s.keys.filter (fun p => !(keyPred u v p))
           etags := alInsert (u, v) (s.count + 1) s.etags
           count := s.count + 1 }

/-- Modelled from the spec: `delete_backup` removes the version's metadata,
its etag, and every key stored under it (spec section 4.1 `delete` together
with invariant I5). -/
def delete_backup (s : KeyBackups) (u : String) (v : Nat) : KeyBackups :=
  { s with algorithms := alErase (u, v) s.algorithms
           etags := alErase (u, v) s.etags
           keys := s.keys.filter (fun p => !(keyPred u v p)) }

/-- Response of the key-count-reporting routes: the key count (already cast
to `u32` by the route) and the etag. -/
structure KeysResponse where
  count : Nat
  etag : Nat
deriving DecidableEq

/-- Response of `get_backup_route` and `get_latest_backup_route`. -/
structure BackupResponse where
  algorithm : String
  count : Nat
  etag : Nat
  version : Nat
deriving DecidableEq

/-- Truncation performed by the `as u32` cast in the route handlers. -/
def u32 (n : Nat) : Nat := n % 2 ^ 32

/-- `create_backup_route` (`POST /room_keys/version`). -/
def createBackupRoute (s : KeyBackups) (u : String) (alg : String) :
    Except Err (KeyBackups × Nat) :=
  let p := create_backup s u alg
  Except.ok (p.2, p.1)

/-- `update_backup_route` (`PUT /room_keys/version/:version`). -/
def updateBackupRoute (s : KeyBackups) (u : String) (v : Nat) (alg : String) :
    Except Err (KeyBackups × Unit) :=
  match update_backup s u v alg with
  | Except.error e => Except.error e
  | Except.ok s1 => Except.ok (s1, ())

/-- `get_latest_backup_route` (`GET /room_keys/version`). -/
def getLatestBackupRoute (s : KeyBackups) (u : String) :
    Except Err (KeyBackups × BackupResponse) :=
  match get_latest_backup s u with
  | none => Except.error Err.notFound
  | some (v, a) =>
    match get_etag s u v with
    | none => Except.error Err.badDatabase
    | some e =>
      Except.ok (s, { algorithm := a, count := u32 (count_keys s u v), etag := e, version := v })

/-- `get_backup_route` (`GET /room_keys/version/:version`). -/
def getBackupRoute (s : KeyBackups) (u : String) (v : Nat) :
    Except Err (KeyBackups × BackupResponse) :=
  match get_backup s u v with
  | none => Except.error Err.notFound
  | some a =>
    match get_etag s u v with
    | none => Except.error Err.badDatabase
    | some e =>
      Except.ok (s, { algorithm := a, count := u32 (count_keys s u v), etag := e, version := v })

/-- `delete_backup_route` (`DELETE /room_keys/version/:version`); note the
Rust handler performs no latest-version check. -/
def deleteBackupRoute (s : KeyBackups) (u : String) (v : Nat) :
    Except Err (KeyBackups × Unit) :=
  Except.ok (delete_backup s u v, ())

/-- `add_backup_keys_route` (`PUT /room_keys/keys`): rejects a non-latest
version with `InvalidParam`, then adds every submitted ((room, session),
payload) entry. -/
def addBackupKeysRoute (s : KeyBackups) (u : String) (v : Nat)
    (rooms : List ((String × String) × String)) : Except Err (KeyBackups × KeysResponse) :=
  if some v ≠ get_latest_backup_version s u then Except.error Err.invalidParam
  else
    let s1 := rooms.foldl (fun st e => add_key st u v e.1.1 e.1.2 e.2) s
    match get_etag s1 u v with
    | none => Except.error Err.badDatabase
    | some e => Except.ok (s1, { count := u32 (count_keys s1 u v), etag := e })

/-- `add_backup_key_sessions_route` (`PUT /room_keys/keys/:room_id`). -/
def addBackupKeySessionsRoute (s : KeyBackups) (u : String) (v : Nat) (r : String)
    (sessions : List (String × String)) : Except Err (KeyBackups × KeysResponse) :=
  if some v ≠ get_latest_backup_version s u then Except.error Err.invalidParam
  else
    let s1 := sessions.foldl (fun st e => add_key st u v r e.1 e.2) s
    match get_etag s1 u v with
    | none => Except.error Err.badDatabase
    | some e => Except.ok (s1, { count := u32 (count_keys s1 u v), etag := e })

/-- `add_backup_key_session_route` (`PUT /room_keys/keys/:room_id/:session_id`). -/
def addBackupKeySessionRoute (s : KeyBackups) (u : String) (v : Nat) (r : String)
    (sess : String) (d : String) : Except Err (KeyBackups × KeysResponse) :=
  if some v ≠ get_latest_backup_version s u then Except.error Err.invalidParam
  else
    let s1 := add_key s u v r sess d
    match get_etag s1 u v with
    | none => Except.error Err.badDatabase
    | some e => Except.ok (s1, { count := u32 (count_keys s1 u v), etag := e })

/-- `get_backup_keys_route` (`GET /room_keys/keys`); the Rust handler returns
the mapping unconditionally, with no not-found check. -/
def getBackupKeysRoute (s : KeyBackups) (u : String) (v : Nat) :
    Except Err (KeyBackups × List ((String × String) × String)) :=
  Except.ok (s, get_all s u v)

/-- `get_backup_key_sessions_route` (`GET /room_keys/keys/:room_id`); the Rust
handler returns the mapping unconditionally, with no not-found check. -/
def getBackupKeySessionsRoute (s : KeyBackups) (u : String) (v : Nat) (r : String) :
    Except Err (KeyBackups × List (String × String)) :=
  Except.ok (s, get_room s u v r)

/-- `get_backup_key_session_route` (`GET /room_keys/keys/:room_id/:session_id`);
a missing session maps to `NotFound`. -/
def getBackupKeySessionRoute (s : KeyBackups) (u : String) (v : Nat) (r : String)
    (sess : String) : Except Err (KeyBackups × String) :=
  match get_session s u v r sess with
  | none => Except.error Err.notFound
  | some d => Except.ok (s, d)

/-- `delete_backup_keys_route` (`DELETE /room_keys/keys`); note the Rust
handler performs no latest-version check. -/
def deleteBackupKeysRoute (s : KeyBackups) (u : String) (v : Nat) :
    Except Err (KeyBackups × KeysResponse) :=
  let s1 := delete_all_keys s u v
  match get_etag s1 u v with
  | none => Except.error Err.badDatabase
  | some e => Except.ok (s1, { count := u32 (count_keys s1 u v), etag := e })

/-- `delete_backup_key_sessions_route` (`DELETE /room_keys/keys/:room_id`);
no latest-version check. -/
def deleteBackupKeySessionsRoute (s : KeyBackups) (u : String) (v : Nat) (r : String) :
    Except Err (KeyBackups × KeysResponse) :=
  let s1 := delete_room_keys s u v r
  match get_etag s1 u v with
  | none => Except.error Err.badDatabase
  | some e => Except.ok (s1, { count := u32 (count_keys s1 u v), etag := e })

/-- `delete_backup_key_session_route`
(`DELETE /room_keys/keys/:room_id/:session_id`); no latest-version check. -/
def deleteBackupKeySessionRoute (s : KeyBackups) (u : String) (v : Nat) (r : String)
    (sess : String) : Except Err (KeyBackups × KeysResponse) :=
  let s1 := delete_room_key s u v r sess
  match get_etag s1 u v with
  | none => Except.error Err.badDatabase
  | some e => Except.ok (s1, { count := u32 (count_keys s1 u v), etag := e })

/-- The state seen by the caller after a route call: the returned state on
success, the unchanged input state on error. -/
def stRes {α : Type} (s : KeyBackups) : Except Err (KeyBackups × α) → KeyBackups
  | Except.ok p => p.1
  | Except.error _ => s

/-- The empty store. -/
def emptyStore : KeyBackups :=
  { algorithms := [], etags := [], keys := [], count := 0 }

/-- All version ids currently stored are at most the global counter; this holds
in every reachable state because version ids are minted from the counter. -/
def Bounded (s : KeyBackups) : Prop :=
  ∀ q ∈ s.algorithms, q.1.2 ≤ s.count

instance (s : KeyBackups) : Decidable (Bounded s) := by
  unfold Bounded; infer_instance

/-- The stored key identities are pairwise distinct; this holds in every
reachable state because insertion replaces any previous binding. -/
def KeysNodup (s : KeyBackups) : Prop :=
  (s.keys.map Prod.fst).Nodup

instance (s : KeyBackups) : Decidable (KeysNodup s) := by
  unfold KeysNodup; infer_instance

/-- One read-only route call, with its arguments. -/
inductive ReadOp
  | latestOf (u : String)
  | backupOf (u : String) (v : Nat)
  | allKeys (u : String) (v : Nat)
  | roomKeys (u : String) (v : Nat) (r : String)
  | oneKey (u : String) (v : Nat) (r : String) (sess : String)

/-- The state left behind by one read-only route call. -/
def readStep (s : KeyBackups) : ReadOp → KeyBackups
  | ReadOp.latestOf u => stRes s (getLatestBackupRoute s u)
  | ReadOp.backupOf u v => stRes s (getBackupRoute s u v)
  | ReadOp.allKeys u v => stRes s (getBackupKeysRoute s u v)
  | ReadOp.roomKeys u v r => stRes s (getBackupKeySessionsRoute s u v r)
  | ReadOp.oneKey u v r sess => stRes s (getBackupKeySessionRoute s u v r sess)

/-- The state left behind by a sequence of read-only route calls. -/
def applyReads (s : KeyBackups) (l : List ReadOp) : KeyBackups :=
  l.foldl readStep s

/-- One key-store mutation on a fixed (user, version), as in spec section 4.2. -/
inductive KOp
  | put (r sess d : String)
  | delOne (r sess : String)
  | delRoom (r : String)
  | delAll

/-- Apply one key-store mutation. -/
def applyKOp (u : String) (v : Nat) (s : KeyBackups) : KOp → KeyBackups
  | KOp.put r sess d => add_key s u v r sess d
  | KOp.delOne r sess => delete_room_key s u v r sess
  | KOp.delRoom r => delete_room_keys s u v r
  | KOp.delAll => delete_all_keys s u v

/-- Apply a sequence of key-store mutations. -/
def applyKOps (s : KeyBackups) (u : String) (v : Nat) (ops : List KOp) : KeyBackups :=
  ops.foldl (applyKOp u v) s

/-- The count field of a key-count response, if the call succeeded. -/
def respCountOf : Except Err (KeyBackups × KeysResponse) → Option Nat
  | Except.ok p => some p.2.count
  | Except.error _ => none

/-- The resulting state of a call, if it succeeded. -/
def stateOf {α : Type} : Except Err (KeyBackups × α) → Option KeyBackups
  | Except.ok p => some p.1
  | Except.error _ => none

/-- Store holding one backup version (id 1) for user `"u"` and no keys. -/
def sOne : KeyBackups := (create_backup emptyStore "u" "alg").2

/-- Store holding versions 1 and 2 for user `"u"` (2 is latest) and no keys. -/
def sTwo : KeyBackups := (create_backup sOne "u" "alg2").2

/-- `sOne` with one key stored under version 1. -/
def sOneKey : KeyBackups := add_key sOne "u" 1 "r" "s1" "d"

/-- The `i`-th session name of the large store: `i` repetitions of `a`, so
distinct indices give distinct names. -/
def bigSession (i : Nat) : String := String.mk (List.replicate i 'a')

/-- `2 ^ 32` put operations with pairwise distinct session ids. -/
def bigOps : List KOp := (List.range (2 ^ 32)).map (fun i => KOp.put "r" (bigSession i) "d")

/-- The store reached from `sOne` by `2 ^ 32` puts of distinct sessions into
version 1. -/
def bigState : KeyBackups := applyKOps sOne "u" 1 bigOps

/-! ### Association-list lemmas -/

theorem alLookup_alErase_ne {α β : Type} [DecidableEq α] {k k' : α} (l : List (α × β))
    (h : k' ≠ k) : alLookup k (alErase k' l) = alLookup k l := by
  induction l with
  | nil => rfl
  | cons p l ih =>
    simp only [alErase, List.filter_cons] at ih ⊢
    by_cases hp : p.1 = k'
    · have hpk : p.1 ≠ k := fun hk => h (hp.symm.trans hk)
      rw [if_neg (by simp [hp])]
      rw [ih]
      simp only [alLookup, if_neg hpk]
    · rw [if_pos (by simp [hp])]
      simp only [alLookup]
      by_cases hk : p.1 = k
      · simp [hk]
      · simp only [if_neg hk]
        exact ih

theorem alLookup_alInsert_self {α β : Type} [DecidableEq α] (k : α) (x : β)
    (l : List (α × β)) : alLookup k (alInsert k x l) = some x := by
  simp [alInsert, alLookup]

theorem alLookup_alInsert_ne {α β : Type} [DecidableEq α] {k k' : α} (x : β)
    (l : List (α × β)) (h : k' ≠ k) : alLookup k (alInsert k' x l) = alLookup k l := by
  simp only [alInsert, alLookup, h, if_false]
  exact alLookup_alErase_ne l h

theorem alLookup_eq_none_iff {α β : Type} [DecidableEq α] (k : α) (l : List (α × β)) :
    alLookup k l = none ↔ ∀ p ∈ l, p.1 ≠ k := by
  induction l with
  | nil => simp [alLookup]
  | cons p l ih =>
    by_cases hp : p.1 = k
    · simp [alLookup, hp]
    · simp [alLookup, hp, ih]

theorem alErase_eq_self {α β : Type} [DecidableEq α] {k : α} {l : List (α × β)}
    (h : alLookup k l = none) : alErase k l = l := by
  rw [alLookup_eq_none_iff] at h
  exact List.filter_eq_self.mpr (fun p hp => by simpa using h p hp)

/-! ### Latest-version lemmas -/

theorem maxVersion_mem {l : List Nat} {m : Nat} (h : maxVersion l = some m) : m ∈ l := by
  induction l generalizing m with
  | nil => simp [maxVersion] at h
  | cons a l ih =>
    simp only [maxVersion] at h
    cases hl : maxVersion l with
    | none => rw [hl] at h; simp at h; simp [h]
    | some m' =>
      rw [hl] at h
      simp only [Option.some.injEq] at h
      by_cases hc : a ≤ m'
      · rw [if_pos hc] at h
        exact List.mem_cons_of_mem a (h ▸ ih hl)
      · rw [if_neg hc] at h
        exact h ▸ List.mem_cons_self a l

theorem maxVersion_cons_of_le {a : Nat} {l : List Nat} (h : ∀ x ∈ l, x ≤ a) :
    maxVersion (a :: l) = some a := by
  simp only [maxVersion]
  cases hl : maxVersion l with
  | none => rfl
  | some m =>
    have hm : m ≤ a := h m (maxVersion_mem hl)
    by_cases hc : a ≤ m
    · simp [hc, Nat.le_antisymm hm hc]
    · simp [hc]

theorem mem_userVersions {s : KeyBackups} {u : String} {x : Nat} :
    x ∈ userVersions s u ↔ ∃ q ∈ s.algorithms, q.1.1 = u ∧ q.1.2 = x := by
  simp only [userVersions, List.mem_map, List.mem_filter, decide_eq_true_eq]
  constructor
  · rintro ⟨q, ⟨hq, hu⟩, hx⟩; exact ⟨q, hq, hu, hx⟩
  · rintro ⟨q, hq, hu, hx⟩; exact ⟨q, ⟨hq, hu⟩, hx⟩

theorem userVersions_create (s : KeyBackups) (u : String) (alg : String) :
    userVersions (create_backup s u alg).2 u
      = (s.count + 1) :: userVersions { s with algorithms := alErase (u, s.count + 1) s.algorithms } u := by
  simp [create_backup, alInsert, userVersions, List.filter_cons]

theorem latest_create (s : KeyBackups) (u : String) (alg : String) (hb : Bounded s) :
    get_latest_backup_version (create_backup s u alg).2 u = some (s.count + 1) := by
  rw [get_latest_backup_version, userVersions_create]
  refine maxVersion_cons_of_le (fun x hx => ?_)
  rw [mem_userVersions] at hx
  rcases hx with ⟨q, hq, _, hx⟩
  have hq' : q ∈ s.algorithms := List.mem_of_mem_filter hq
  have := hb q hq'
  omega

theorem bounded_create (s : KeyBackups) (u : String) (alg : String) (hb : Bounded s) :
    Bounded (create_backup s u alg).2 := by
  intro q hq
  simp only [create_backup, alInsert, List.mem_cons] at hq ⊢
  rcases hq with h | h
  · subst h; simp
  · have := hb q (List.mem_of_mem_filter h)
    omega

/-! ### Key-store nodup invariant -/

theorem not_mem_alErase_fst {α β : Type} [DecidableEq α] (k : α) (l : List (α × β)) :
    k ∉ (alErase k l).map Prod.fst := by
  intro h
  rcases List.mem_map.mp h with ⟨p, hp, hk⟩
  have := List.mem_filter.mp hp
  simp [hk] at this

theorem nodup_alErase_fst {α β : Type} [DecidableEq α] (k : α) {l : List (α × β)}
    (h : (l.map Prod.fst).Nodup) : ((alErase k l).map Prod.fst).Nodup :=
  ((List.filter_sublist l).map Prod.fst).nodup h

theorem nodup_alInsert_fst {α β : Type} [DecidableEq α] (k : α) (x : β) {l : List (α × β)}
    (h : (l.map Prod.fst).Nodup) : ((alInsert k x l).map Prod.fst).Nodup := by
  simp only [alInsert, List.map_cons]
  exact List.nodup_cons.mpr ⟨not_mem_alErase_fst k l, nodup_alErase_fst k h⟩

theorem keysNodup_add_key {s : KeyBackups} (u : String) (v : Nat) (r sess d : String)
    (h : KeysNodup s) : KeysNodup (add_key s u v r sess d) :=
  nodup_alInsert_fst _ _ h

theorem keysNodup_of_filter {s : KeyBackups} (f : KeyId × String → Bool)
    (h : KeysNodup s) : ((s.keys.filter f).map Prod.fst).Nodup :=
  ((List.filter_sublist s.keys).map Prod.fst).nodup h

theorem keysNodup_delete_room_key {s : KeyBackups} (u : String) (v : Nat) (r sess : String)
    (h : KeysNodup s) : KeysNodup (delete_room_key s u v r sess) :=
  keysNodup_of_filter _ h

theorem keysNodup_delete_room_keys {s : KeyBackups} (u : String) (v : Nat) (r : String)
    (h : KeysNodup s) : KeysNodup (delete_room_keys s u v r) :=
  keysNodup_of_filter _ h

theorem keysNodup_delete_all_keys {s : KeyBackups} (u : String) (v : Nat)
    (h : KeysNodup s) : KeysNodup (delete_all_keys s u v) :=
  keysNodup_of_filter _ h

/-- The count of a version always equals the number of distinct
(room, session) pairs stored under it, in any state whose key identities are
pairwise distinct. -/
theorem count_keys_eq_dedup {s : KeyBackups} (u : String) (v : Nat) (h : KeysNodup s) :
    count_keys s u v = (sessionPairs s u v).dedup.length := by
  have hinj : ∀ x ∈ s.keys.filter (keyPred u v), ∀ y ∈ s.keys.filter (keyPred u v),
      (fun p : KeyId × String => (p.1.room, p.1.session)) x
        = (fun p : KeyId × String => (p.1.room, p.1.session)) y → x = y := by
    intro x hx y hy hxy
    obtain ⟨⟨xu, xv, xr, xs⟩, xd⟩ := x
    obtain ⟨⟨yu, yv, yr, ys⟩, yd⟩ := y
    have hx' := List.mem_filter.mp hx
    have hy' := List.mem_filter.mp hy
    simp only [keyPred, decide_eq_true_eq] at hx' hy'
    simp only [Prod.mk.injEq] at hxy
    have hid : (⟨xu, xv, xr, xs⟩ : KeyId) = ⟨yu, yv, yr, ys⟩ := by
      simp only [KeyId.mk.injEq]
      exact ⟨hx'.2.1.trans hy'.2.1.symm, hx'.2.2.trans hy'.2.2.symm, hxy.1, hxy.2⟩
    exact List.inj_on_of_nodup_map h hx'.1 hy'.1 hid
  have hfil : (s.keys.filter (keyPred u v)).Nodup :=
    (keysNodup_of_filter (keyPred u v) h).of_map
  have hnd : (sessionPairs s u v).Nodup := hfil.map_on hinj
  rw [List.dedup_eq_self.mpr hnd]
  simp [count_keys, sessionPairs]

/-! ### Etag lemmas -/

theorem get_etag_add_key (s : KeyBackups) (u : String) (v : Nat) (r sess d : String) :
    get_etag (add_key s u v r sess d) u v = some (s.count + 1) := by
  simp [add_key, get_etag, alLookup_alInsert_self]

theorem get_etag_delete_room_key (s : KeyBackups) (u : String) (v : Nat) (r sess : String) :
    get_etag (delete_room_key s u v r sess) u v = some (s.count + 1) := by
  simp [delete_room_key, get_etag, alLookup_alInsert_self]

theorem get_etag_delete_room_keys (s : KeyBackups) (u : String) (v : Nat) (r : String) :
    get_etag (delete_room_keys s u v r) u v = some (s.count + 1) := by
  simp [delete_room_keys, get_etag, alLookup_alInsert_self]

theorem get_etag_delete_all_keys (s : KeyBackups) (u : String) (v : Nat) :
    get_etag (delete_all_keys s u v) u v = some (s.count + 1) := by
  simp [delete_all_keys, get_etag, alLookup_alInsert_self]

/-! ### Read operations as a sequence -/

theorem readStep_eq (s : KeyBackups) (op : ReadOp) : readStep s op = s := by
  cases op with
  | latestOf u =>
    simp only [readStep, getLatestBackupRoute]
    split
    · rfl
    · split
      · rfl
      · rfl
  | backupOf u v =>
    simp only [readStep, getBackupRoute]
    split
    · rfl
    · split
      · rfl
      · rfl
  | allKeys u v => rfl
  | roomKeys u v r => rfl
  | oneKey u v r sess =>
    simp only [readStep, getBackupKeySessionRoute]
    split
    · rfl
    · rfl

theorem applyReads_eq (s : KeyBackups) (l : List ReadOp) : applyReads s l = s := by
  induction l with
  | nil => rfl
  | cons op l ih =>
    simp only [applyReads, List.foldl_cons, readStep_eq]
    exact ih

/-! ### Key mutations as a sequence -/

theorem keysNodup_applyKOp {s : KeyBackups} (u : String) (v : Nat) (op : KOp)
    (h : KeysNodup s) : KeysNodup (applyKOp u v s op) := by
  cases op with
  | put r sess d => exact keysNodup_add_key u v r sess d h
  | delOne r sess => exact keysNodup_delete_room_key u v r sess h
  | delRoom r => exact keysNodup_delete_room_keys u v r h
  | delAll => exact keysNodup_delete_all_keys u v h

theorem keysNodup_applyKOps {s : KeyBackups} (u : String) (v : Nat) (ops : List KOp)
    (h : KeysNodup s) : KeysNodup (applyKOps s u v ops) := by
  induction ops generalizing s with
  | nil => exact h
  | cons op ops ih =>
    exact ih (keysNodup_applyKOp u v op h)

/-! ### Counting lemmas -/

theorem count_keys_add_key_absent {s : KeyBackups} {u : String} {v : Nat} {r sess : String}
    (d : String) (h : get_session s u v r sess = none) :
    count_keys (add_key s u v r sess d) u v = count_keys s u v + 1 := by
  have h' : alLookup (⟨u, v, r, sess⟩ : KeyId) s.keys = none := h
  simp only [add_key, count_keys, alInsert, alErase_eq_self h', List.filter_cons]
  simp [keyPred]

theorem get_session_add_key_ne {s : KeyBackups} {u u' : String} {v v' : Nat}
    {r r' sess sess' : String} (d : String)
    (h : (⟨u, v, r, sess⟩ : KeyId) ≠ ⟨u', v', r', sess'⟩) :
    get_session (add_key s u v r sess d) u' v' r' sess' = get_session s u' v' r' sess' := by
  simp only [get_session, add_key]
  exact alLookup_alInsert_ne d s.keys h

theorem bigSession_inj : Function.Injective bigSession := by
  intro i j h
  have h2 : (List.replicate i 'a').length = (List.replicate j 'a').length := by
    have h1 := congrArg String.data h
    simp only [bigSession] at h1
    rw [h1]
  simpa using h2

theorem count_applyKOps_puts (u : String) (v : Nat) (r d : String) :
    ∀ (l : List Nat) (s : KeyBackups), l.Nodup →
      (∀ i ∈ l, get_session s u v r (bigSession i) = none) →
      count_keys (applyKOps s u v (l.map (fun i => KOp.put r (bigSession i) d))) u v
        = count_keys s u v + l.length := by
  intro l
  induction l with
  | nil => intro s _ _; simp [applyKOps]
  | cons a l ih =>
    intro s hnd habs
    have hnotmem : a ∉ l := (List.nodup_cons.mp hnd).1
    have hstep :
        applyKOps s u v ((a :: l).map (fun i => KOp.put r (bigSession i) d))
          = applyKOps (add_key s u v r (bigSession a) d) u v
              (l.map (fun i => KOp.put r (bigSession i) d)) := rfl
    rw [hstep]
    have habs' : ∀ i ∈ l,
        get_session (add_key s u v r (bigSession a) d) u v r (bigSession i) = none := by
      intro i hi
      have hne : (⟨u, v, r, bigSession a⟩ : KeyId) ≠ ⟨u, v, r, bigSession i⟩ := by
        intro hc
        have : bigSession a = bigSession i := by
          simpa [KeyId.mk.injEq] using hc
        exact hnotmem (bigSession_inj this ▸ hi)
      rw [get_session_add_key_ne d hne]
      exact habs i (List.mem_cons_of_mem a hi)
    rw [ih (add_key s u v r (bigSession a) d) (List.nodup_cons.mp hnd).2 habs']
    rw [count_keys_add_key_absent d (habs a (List.mem_cons_self a l))]
    simp only [List.length_cons]
    omega

theorem get_session_applyKOps_puts_ne (u : String) (v : Nat) (r d r0 s0 : String)
    (hne : r0 ≠ r) :
    ∀ (l : List Nat) (s : KeyBackups),
      get_session (applyKOps s u v (l.map (fun i => KOp.put r (bigSession i) d))) u v r0 s0
        = get_session s u v r0 s0 := by
  intro l
  induction l with
  | nil => intro s; rfl
  | cons a l ih =>
    intro s
    have hstep :
        applyKOps s u v ((a :: l).map (fun i => KOp.put r (bigSession i) d))
          = applyKOps (add_key s u v r (bigSession a) d) u v
              (l.map (fun i => KOp.put r (bigSession i) d)) := rfl
    rw [hstep, ih]
    refine get_session_add_key_ne d (fun hc => hne ?_)
    have := (KeyId.mk.injEq u v r (bigSession a) u v r0 s0).mp hc
    exact this.2.2.1.symm

theorem count_keys_keys_eq {s t : KeyBackups} (u : String) (v : Nat)
    (h : s.keys = t.keys) : count_keys s u v = count_keys t u v := by
  simp [count_keys, h]

theorem sessionPairs_keys_eq {s t : KeyBackups} (u : String) (v : Nat)
    (h : s.keys = t.keys) : sessionPairs s u v = sessionPairs t u v := by
  simp [sessionPairs, h]

theorem keysNodup_sOne : KeysNodup sOne := by
  simp [KeysNodup, sOne, create_backup, emptyStore]

theorem count_bigState : count_keys bigState "u" 1 = 2 ^ 32 := by
  have h := count_applyKOps_puts "u" 1 "r" "d" (List.range (2 ^ 32)) sOne
    (List.nodup_range _) (fun i _ => rfl)
  have h0 : count_keys sOne "u" 1 = 0 := rfl
  rw [h0, List.length_range, Nat.zero_add] at h
  unfold bigState bigOps
  exact h

theorem keysNodup_bigState : KeysNodup bigState :=
  keysNodup_applyKOps "u" 1 bigOps keysNodup_sOne

theorem get_session_bigState_r2 :
    get_session bigState "u" 1 "r2" "x" = none := by
  have h := get_session_applyKOps_puts_ne "u" 1 "r" "d" "r2" "x"
    (by decide) (List.range (2 ^ 32)) sOne
  unfold bigState bigOps
  rw [h]
  rfl

/-! ### Further lookup lemmas -/

theorem alLookup_mem {α β : Type} [DecidableEq α] {k : α} {x : β} :
    ∀ {l : List (α × β)}, alLookup k l = some x → (k, x) ∈ l := by
  intro l
  induction l with
  | nil => intro h; simp [alLookup] at h
  | cons p l ih =>
    intro h
    by_cases hp : p.1 = k
    · rw [alLookup, if_pos hp] at h
      obtain ⟨p1, p2⟩ := p
      simp only at hp h
      rw [Option.some.injEq] at h
      rw [hp, h]
      exact List.mem_cons_self _ _
    · rw [alLookup, if_neg hp] at h
      exact List.mem_cons_of_mem _ (ih h)

theorem alLookup_alErase_self {α β : Type} [DecidableEq α] (k : α) (l : List (α × β)) :
    alLookup k (alErase k l) = none := by
  rw [alLookup_eq_none_iff]
  intro p hp
  have := (List.mem_filter.mp hp).2
  simpa using this

theorem get_session_delete_backup (s : KeyBackups) (u : String) (v : Nat)
    (r sess : String) : get_session (delete_backup s u v) u v r sess = none := by
  rw [get_session, alLookup_eq_none_iff]
  intro p hp hpk
  have h2 := (List.mem_filter.mp hp).2
  simp only [keyPred, hpk, Bool.not_eq_true] at h2
  simp at h2

theorem get_all_delete_backup (s : KeyBackups) (u : String) (v : Nat) :
    get_all (delete_backup s u v) u v = [] := by
  rw [get_all, List.map_eq_nil_iff]
  simp only [delete_backup, List.filter_filter]
  refine List.filter_eq_nil_iff.mpr (fun p _ => ?_)
  cases h : keyPred u v p <;> simp [h]

theorem get_backup_delete_backup (s : KeyBackups) (u : String) (v : Nat) :
    get_backup (delete_backup s u v) u v = none :=
  alLookup_alErase_self (u, v) s.algorithms

/-- Folding `add_key` over a nonempty request list leaves an etag strictly
above the starting counter. -/
theorem get_etag_foldl_add {α : Type} (u : String) (v : Nat)
    (f : α → String × String × String) :
    ∀ (l : List α) (s : KeyBackups), l ≠ [] →
      ∃ e0, get_etag (l.foldl
          (fun st p => add_key st u v (f p).1 (f p).2.1 (f p).2.2) s) u v = some e0
        ∧ s.count < e0 := by
  intro l
  induction l with
  | nil => intro s h; exact absurd rfl h
  | cons a l ih =>
    intro s _
    rw [List.foldl_cons]
    by_cases hl : l = []
    · subst hl
      exact ⟨s.count + 1, get_etag_add_key s u v _ _ _, Nat.lt_succ_self _⟩
    · obtain ⟨e0, he, hlt⟩ := ih (add_key s u v (f a).1 (f a).2.1 (f a).2.2) hl
      exact ⟨e0, he, Nat.lt_of_succ_lt hlt⟩

/-- Folding `add_key` over a request list preserves the distinct-keys
invariant. -/
theorem keysNodup_foldl_add {α : Type} (u : String) (v : Nat)
    (f : α → String × String × String) :
    ∀ (l : List α) (s : KeyBackups), KeysNodup s →
      KeysNodup (l.foldl (fun st p => add_key st u v (f p).1 (f p).2.1 (f p).2.2) s) := by
  intro l
  induction l with
  | nil => intro s h; exact h
  | cons a l ih =>
    intro s h
    rw [List.foldl_cons]
    exact ih _ (keysNodup_add_key u v _ _ _ h)

/-! ### Claim theorems -/

/-- C5: after `delete_backup(version)` no key stored under that version
remains: every per-session read of those keys returns `NotFound`, they are
excluded from `get_all` (which becomes empty for that version), and the
version's metadata is removed in the same step, leaving no orphaned keys;
the delete route itself always succeeds and returns exactly this state. -/
theorem C5_cascade_delete (s : KeyBackups) (u : String) (v : Nat) :
    (∀ r sess, get_session (delete_backup s u v) u v r sess = none)
    ∧ (∀ r sess, getBackupKeySessionRoute (delete_backup s u v) u v r sess
        = Except.error Err.notFound)
    ∧ get_all (delete_backup s u v) u v = []
    ∧ getBackupKeysRoute (delete_backup s u v) u v = Except.ok (delete_backup s u v, [])
    ∧ get_backup (delete_backup s u v) u v = none
    ∧ getBackupRoute (delete_backup s u v) u v = Except.error Err.notFound
    ∧ deleteBackupRoute s u v = Except.ok (delete_backup s u v, ()) := by
  refine ⟨fun r sess => get_session_delete_backup s u v r sess,
    fun r sess => ?_, get_all_delete_backup s u v, ?_,
    get_backup_delete_backup s u v, ?_, rfl⟩
  · simp [getBackupKeySessionRoute, get_session_delete_backup s u v r sess]
  · simp [getBackupKeysRoute, get_all_delete_backup s u v]
  · simp [getBackupRoute, get_backup_delete_backup s u v]

/-- C8: `update_backup` fails with `NotFound` exactly when the version does
not exist for that user, and succeeds on any existing version whether or not
it is the latest (no latest-version check appears in the route). -/
theorem C8_update_any_version (s : KeyBackups) (u : String) (v : Nat) (alg : String) :
    (updateBackupRoute s u v alg = Except.error Err.notFound ↔ get_backup s u v = none)
    ∧ (updateBackupRoute s u v alg).isOk = (get_backup s u v).isSome := by
  cases h : alLookup (u, v) s.algorithms with
  | none =>
    constructor
    · simp [updateBackupRoute, update_backup, get_backup, h]
    · simp [updateBackupRoute, update_backup, get_backup, h, Except.isOk, Except.toBool]
  | some a =>
    constructor
    · simp [updateBackupRoute, update_backup, get_backup, h]
    · simp [updateBackupRoute, update_backup, get_backup, h, Except.isOk, Except.toBool]

/-- C10: for a user with no backup versions at all, every add-keys route
(bulk, per-room, per-session) fails with `InvalidParam` — not `NotFound` —
because the latest-version comparison fails against the absent latest, and
the store is left unchanged. -/
theorem C10_add_without_any_version (s : KeyBackups) (u : String) (v : Nat)
    (ks : List ((String × String) × String)) (r : String)
    (rsess : List (String × String)) (sess d : String)
    (h : userVersions s u = []) :
    get_latest_backup_version s u = none
    ∧ addBackupKeysRoute s u v ks = Except.error Err.invalidParam
    ∧ addBackupKeySessionsRoute s u v r rsess = Except.error Err.invalidParam
    ∧ addBackupKeySessionRoute s u v r sess d = Except.error Err.invalidParam
    ∧ stRes s (addBackupKeysRoute s u v ks) = s
    ∧ stRes s (addBackupKeySessionsRoute s u v r rsess) = s
    ∧ stRes s (addBackupKeySessionRoute s u v r sess d) = s := by
  have hl : get_latest_backup_version s u = none := by
    rw [get_latest_backup_version, h]; rfl
  have h1 : addBackupKeysRoute s u v ks = Except.error Err.invalidParam := by
    simp [addBackupKeysRoute, hl]
  have h2 : addBackupKeySessionsRoute s u v r rsess = Except.error Err.invalidParam := by
    simp [addBackupKeySessionsRoute, hl]
  have h3 : addBackupKeySessionRoute s u v r sess d = Except.error Err.invalidParam := by
    simp [addBackupKeySessionRoute, hl]
  exact ⟨hl, h1, h2, h3, by rw [h1]; rfl, by rw [h2]; rfl, by rw [h3]; rfl⟩

/-- C10 witness: a user of the empty store has no versions, and a bulk add
fails with `InvalidParam`. -/
theorem C10_add_without_any_version_witness :
    addBackupKeysRoute emptyStore "u" 1 [(("r", "s1"), "d")]
      = Except.error Err.invalidParam :=
  (C10_add_without_any_version emptyStore "u" 1 [(("r", "s1"), "d")] "r" [("s1", "d")]
    "s1" "d" rfl).2.1

/-- C4: successive `create_backup` calls yield strictly increasing version
ids never used before, `get_latest_backup_version` returns the id of the most
recent create after each one, and a user with no versions has no latest. -/
theorem C4_monotonic_versions (s : KeyBackups) (u : String) (a1 a2 : String)
    (hb : Bounded s) :
    (create_backup s u a1).1 < (create_backup (create_backup s u a1).2 u a2).1
    ∧ (∀ q ∈ s.algorithms, q.1.2 ≠ (create_backup s u a1).1)
    ∧ (∀ q ∈ (create_backup s u a1).2.algorithms,
        q.1.2 ≠ (create_backup (create_backup s u a1).2 u a2).1)
    ∧ get_latest_backup_version (create_backup s u a1).2 u = some (create_backup s u a1).1
    ∧ get_latest_backup_version (create_backup (create_backup s u a1).2 u a2).2 u
        = some (create_backup (create_backup s u a1).2 u a2).1
    ∧ (∀ u', userVersions s u' = [] → get_latest_backup_version s u' = none) := by
  have hb1 : Bounded (create_backup s u a1).2 := bounded_create s u a1 hb
  refine ⟨?_, ?_, ?_, ?_, ?_, ?_⟩
  · show s.count + 1 < (create_backup s u a1).2.count + 1
    show s.count + 1 < s.count + 1 + 1
    omega
  · intro q hq
    have := hb q hq
    show q.1.2 ≠ s.count + 1
    omega
  · intro q hq
    have := hb1 q hq
    show q.1.2 ≠ (create_backup s u a1).2.count + 1
    have hc : (create_backup s u a1).2.count = s.count + 1 := rfl
    omega
  · exact latest_create s u a1 hb
  · exact latest_create (create_backup s u a1).2 u a2 hb1
  · intro u' h
    rw [get_latest_backup_version, h]
    rfl

/-- C4 witness: on the empty store, after creating twice for user `u`, the
latest version is the one of the second create. -/
theorem C4_monotonic_versions_witness :
    Bounded emptyStore
    ∧ get_latest_backup_version
        (create_backup (create_backup emptyStore "u" "a1").2 "u" "a2").2 "u"
        = some (create_backup (create_backup emptyStore "u" "a1").2 "u" "a2").1 :=
  ⟨by decide, (C4_monotonic_versions emptyStore "u" "a1" "a2" (by decide)).2.2.2.2.1⟩

/-- C2 counterexample: in the store `sOne` (version 1 exists, no keys), the
per-room key read of the absent room `r` under the existing version 1
succeeds with an empty mapping instead of failing with `NotFound`, and the
get-all read of the non-existent version 5 also succeeds with an empty
mapping; this refutes the claim that such reads fail with `NotFound`. -/
theorem C2_counterexample :
    get_backup sOne "u" 1 = some "alg"
    ∧ getBackupKeySessionsRoute sOne "u" 1 "r" = Except.ok (sOne, [])
    ∧ get_backup sOne "u" 5 = none
    ∧ getBackupKeysRoute sOne "u" 5 = Except.ok (sOne, []) :=
  ⟨rfl, rfl, rfl, rfl⟩

/-- C2 (amended): reads of backup metadata (`get_backup_route`,
`get_latest_backup_route`) of a non-existent version fail with `NotFound`,
and the per-session key read of a non-existent session fails with
`NotFound`; but the per-room and get-all key reads always succeed and return
a (possibly empty) mapping, even for a non-existent room or version. -/
theorem C2_read_classification (s : KeyBackups) (u : String) (v : Nat) (r sess : String) :
    (get_backup s u v = none → getBackupRoute s u v = Except.error Err.notFound)
    ∧ (get_latest_backup s u = none → getLatestBackupRoute s u = Except.error Err.notFound)
    ∧ (get_session s u v r sess = none →
        getBackupKeySessionRoute s u v r sess = Except.error Err.notFound)
    ∧ getBackupKeySessionsRoute s u v r = Except.ok (s, get_room s u v r)
    ∧ getBackupKeysRoute s u v = Except.ok (s, get_all s u v) := by
  refine ⟨fun h => ?_, fun h => ?_, fun h => ?_, rfl, rfl⟩
  · simp [getBackupRoute, h]
  · simp [getLatestBackupRoute, h]
  · simp [getBackupKeySessionRoute, h]

/-- C2 witness: on the empty store, reading the absent version 1 through the
metadata route fails with `NotFound`, while the get-all key read of the same
absent version succeeds with an empty mapping. -/
theorem C2_read_classification_witness :
    getBackupRoute emptyStore "u" 1 = Except.error Err.notFound
    ∧ getBackupKeysRoute emptyStore "u" 1 = Except.ok (emptyStore, get_all emptyStore "u" 1) :=
  ⟨(C2_read_classification emptyStore "u" 1 "r" "s1").1 rfl,
    (C2_read_classification emptyStore "u" 1 "r" "s1").2.2.2.2⟩

/-- C7: after creating a second version, every read against the first version
is unchanged: its algorithm, etag, keys (individually, per room, and in
bulk), and count are those it had before, the metadata read route still
succeeds on it, and it is no longer the latest — reads do not require the
target version to be the latest. -/
theorem C7_reads_survive_new_version (s : KeyBackups) (u : String) (v1 : Nat)
    (alg1 a2 : String) (e1 : Nat) (hb : Bounded s)
    (h1 : get_backup s u v1 = some alg1) (he : get_etag s u v1 = some e1) :
    get_backup (create_backup s u a2).2 u v1 = some alg1
    ∧ get_etag (create_backup s u a2).2 u v1 = some e1
    ∧ get_all (create_backup s u a2).2 u v1 = get_all s u v1
    ∧ (∀ r, get_room (create_backup s u a2).2 u v1 r = get_room s u v1 r)
    ∧ (∀ r sess, get_session (create_backup s u a2).2 u v1 r sess = get_session s u v1 r sess)
    ∧ count_keys (create_backup s u a2).2 u v1 = count_keys s u v1
    ∧ get_latest_backup_version (create_backup s u a2).2 u = some (s.count + 1)
    ∧ v1 ≠ s.count + 1
    ∧ getBackupRoute (create_backup s u a2).2 u v1
        = Except.ok ((create_backup s u a2).2,
            { algorithm := alg1, count := u32 (count_keys s u v1), etag := e1, version := v1 })
    ∧ getBackupKeysRoute (create_backup s u a2).2 u v1
        = Except.ok ((create_backup s u a2).2, get_all s u v1) := by
  have hv1 : v1 ≤ s.count := hb ((u, v1), alg1) (alLookup_mem h1)
  have hne : ((u, s.count + 1) : String × Nat) ≠ (u, v1) := by
    intro hc
    have := (Prod.mk.injEq u (s.count + 1) u v1).mp hc
    omega
  have hga : get_backup (create_backup s u a2).2 u v1 = some alg1 := by
    show alLookup (u, v1) (alInsert (u, s.count + 1) a2 s.algorithms) = some alg1
    rw [alLookup_alInsert_ne a2 s.algorithms hne]
    exact h1
  have hge : get_etag (create_backup s u a2).2 u v1 = some e1 := by
    show alLookup (u, v1) (alInsert (u, s.count + 1) (s.count + 1) s.etags) = some e1
    rw [alLookup_alInsert_ne (s.count + 1) s.etags hne]
    exact he
  refine ⟨hga, hge, rfl, fun r => rfl, fun r sess => rfl, rfl,
    latest_create s u a2 hb, by omega, ?_, rfl⟩
  simp only [getBackupRoute, hga, hge]
  rfl

/-- C7 witness: in `sOneKey` (version 1 holding one key), after creating a
second version the key of version 1 is still returned by the per-session
read. -/
theorem C7_reads_survive_new_version_witness :
    get_session (create_backup sOneKey "u" "a2").2 "u" 1 "r" "s1"
      = get_session sOneKey "u" 1 "r" "s1" :=
  (C7_reads_survive_new_version sOneKey "u" 1 "alg" "a2" 2 (by decide) rfl
    rfl).2.2.2.2.1 "r" "s1"

/-- C1 counterexample: in the store `sTwo`, whose latest version for user `u`
is 2, the key-deleting routes and the backup-deleting route targeting the
older version 1 succeed instead of failing with `InvalidParam`; this refutes
the claim that every key-mutating and backup-deleting call on a non-latest
version fails. -/
theorem C1_counterexample :
    get_latest_backup_version sTwo "u" = some 2
    ∧ (deleteBackupKeysRoute sTwo "u" 1).isOk = true
    ∧ (deleteBackupKeySessionsRoute sTwo "u" 1 "r").isOk = true
    ∧ (deleteBackupKeySessionRoute sTwo "u" 1 "r" "s1").isOk = true
    ∧ (deleteBackupRoute sTwo "u" 1).isOk = true :=
  ⟨rfl, rfl, rfl, rfl, rfl⟩

/-- C1 (amended): with latest version `v2` and an older version `v1`, every
key-adding call targeting `v1` fails with `InvalidParam` and leaves the store
unchanged while the identical call targeting `v2` succeeds; the key-deleting
and backup-deleting calls are not guarded and succeed even against `v1`. -/
theorem C1_latest_guard (s : KeyBackups) (u : String) (v1 v2 : Nat)
    (ks : List ((String × String) × String)) (r : String)
    (rsess : List (String × String)) (sess d : String)
    (hlat : get_latest_backup_version s u = some v2) (hne : v1 ≠ v2)
    (hks : ks ≠ []) (hrs : rsess ≠ []) :
    addBackupKeysRoute s u v1 ks = Except.error Err.invalidParam
    ∧ addBackupKeySessionsRoute s u v1 r rsess = Except.error Err.invalidParam
    ∧ addBackupKeySessionRoute s u v1 r sess d = Except.error Err.invalidParam
    ∧ stRes s (addBackupKeysRoute s u v1 ks) = s
    ∧ stRes s (addBackupKeySessionsRoute s u v1 r rsess) = s
    ∧ stRes s (addBackupKeySessionRoute s u v1 r sess d) = s
    ∧ (addBackupKeysRoute s u v2 ks).isOk = true
    ∧ (addBackupKeySessionsRoute s u v2 r rsess).isOk = true
    ∧ (addBackupKeySessionRoute s u v2 r sess d).isOk = true
    ∧ (deleteBackupKeysRoute s u v1).isOk = true
    ∧ (deleteBackupKeySessionsRoute s u v1 r).isOk = true
    ∧ (deleteBackupKeySessionRoute s u v1 r sess).isOk = true
    ∧ (deleteBackupRoute s u v1).isOk = true := by
  have hguard : some v1 ≠ get_latest_backup_version s u := by
    rw [hlat]
    intro hc
    exact hne (Option.some.inj hc)
  have h1 : addBackupKeysRoute s u v1 ks = Except.error Err.invalidParam := by
    rw [addBackupKeysRoute, if_pos hguard]
  have h2 : addBackupKeySessionsRoute s u v1 r rsess = Except.error Err.invalidParam := by
    rw [addBackupKeySessionsRoute, if_pos hguard]
  have h3 : addBackupKeySessionRoute s u v1 r sess d = Except.error Err.invalidParam := by
    rw [addBackupKeySessionRoute, if_pos hguard]
  have hpass : ¬ (some v2 ≠ get_latest_backup_version s u) := by
    rw [hlat]
    simp
  have h4 : (addBackupKeysRoute s u v2 ks).isOk = true := by
    rw [addBackupKeysRoute, if_neg hpass]
    obtain ⟨e0, he, _⟩ := get_etag_foldl_add u v2
      (fun e : (String × String) × String => (e.1.1, e.1.2, e.2)) ks s hks
    simp only [he]
    rfl
  have h5 : (addBackupKeySessionsRoute s u v2 r rsess).isOk = true := by
    rw [addBackupKeySessionsRoute, if_neg hpass]
    obtain ⟨e0, he, _⟩ := get_etag_foldl_add u v2
      (fun e : String × String => (r, e.1, e.2)) rsess s hrs
    simp only [he]
    rfl
  have h6 : (addBackupKeySessionRoute s u v2 r sess d).isOk = true := by
    rw [addBackupKeySessionRoute, if_neg hpass]
    simp only [get_etag_add_key]
    rfl
  refine ⟨h1, h2, h3, by rw [h1]; rfl, by rw [h2]; rfl, by rw [h3]; rfl, h4, h5, h6,
    ?_, ?_, ?_, rfl⟩
  · rw [deleteBackupKeysRoute]
    simp only [get_etag_delete_all_keys]
    rfl
  · rw [deleteBackupKeySessionsRoute]
    simp only [get_etag_delete_room_keys]
    rfl
  · rw [deleteBackupKeySessionRoute]
    simp only [get_etag_delete_room_key]
    rfl

/-- C3: from a state whose version `v` carries etag `e` (with `e` within the
counter bound, as in every reachable state), every successful mutating route
call on `v` — adding keys (nonempty request), deleting keys, or updating the
algorithm — leaves `v` with an etag different from (strictly above) `e`, and
any sequence of read-only route calls leaves the store, hence every etag,
unchanged. -/
theorem C3_etag_changes (s : KeyBackups) (u : String) (v : Nat) (e : Nat)
    (h1 : get_etag s u v = some e) (h2 : e ≤ s.count) :
    (∀ r sess d t resp, addBackupKeySessionRoute s u v r sess d = Except.ok (t, resp) →
      get_etag t u v = some resp.etag ∧ e < resp.etag)
    ∧ (∀ ks t resp, ks ≠ [] → addBackupKeysRoute s u v ks = Except.ok (t, resp) →
      get_etag t u v = some resp.etag ∧ e < resp.etag)
    ∧ (∀ r rsess t resp, rsess ≠ [] →
        addBackupKeySessionsRoute s u v r rsess = Except.ok (t, resp) →
      get_etag t u v = some resp.etag ∧ e < resp.etag)
    ∧ (∀ t resp, deleteBackupKeysRoute s u v = Except.ok (t, resp) →
      get_etag t u v = some resp.etag ∧ e < resp.etag)
    ∧ (∀ r t resp, deleteBackupKeySessionsRoute s u v r = Except.ok (t, resp) →
      get_etag t u v = some resp.etag ∧ e < resp.etag)
    ∧ (∀ r sess t resp, deleteBackupKeySessionRoute s u v r sess = Except.ok (t, resp) →
      get_etag t u v = some resp.etag ∧ e < resp.etag)
    ∧ (∀ alg t, updateBackupRoute s u v alg = Except.ok t →
      get_etag t.1 u v = some (s.count + 1) ∧ e < s.count + 1)
    ∧ (∀ rops, applyReads s rops = s) := by
  refine ⟨?_, ?_, ?_, ?_, ?_, ?_, ?_, fun rops => applyReads_eq s rops⟩
  · intro r sess d t resp hok
    rw [addBackupKeySessionRoute] at hok
    by_cases hg : some v ≠ get_latest_backup_version s u
    · rw [if_pos hg] at hok
      exact absurd hok (by simp)
    · rw [if_neg hg] at hok
      simp only [get_etag_add_key] at hok
      simp only [Except.ok.injEq, Prod.mk.injEq] at hok
      obtain ⟨ht, hresp⟩ := hok
      subst ht
      subst hresp
      exact ⟨get_etag_add_key s u v r sess d, by show e < s.count + 1; omega⟩
  · intro ks t resp hks hok
    rw [addBackupKeysRoute] at hok
    by_cases hg : some v ≠ get_latest_backup_version s u
    · rw [if_pos hg] at hok
      exact absurd hok (by simp)
    · rw [if_neg hg] at hok
      obtain ⟨e0, he, hlt⟩ := get_etag_foldl_add u v
        (fun p : (String × String) × String => (p.1.1, p.1.2, p.2)) ks s hks
      simp only [he] at hok
      simp only [Except.ok.injEq, Prod.mk.injEq] at hok
      obtain ⟨ht, hresp⟩ := hok
      subst ht
      subst hresp
      exact ⟨he, Nat.lt_of_le_of_lt h2 hlt⟩
  · intro r rsess t resp hrs hok
    rw [addBackupKeySessionsRoute] at hok
    by_cases hg : some v ≠ get_latest_backup_version s u
    · rw [if_pos hg] at hok
      exact absurd hok (by simp)
    · rw [if_neg hg] at hok
      obtain ⟨e0, he, hlt⟩ := get_etag_foldl_add u v
        (fun p : String × String => (r, p.1, p.2)) rsess s hrs
      simp only [he] at hok
      simp only [Except.ok.injEq, Prod.mk.injEq] at hok
      obtain ⟨ht, hresp⟩ := hok
      subst ht
      subst hresp
      exact ⟨he, Nat.lt_of_le_of_lt h2 hlt⟩
  · intro t resp hok
    rw [deleteBackupKeysRoute] at hok
    simp only [get_etag_delete_all_keys] at hok
    simp only [Except.ok.injEq, Prod.mk.injEq] at hok
    obtain ⟨ht, hresp⟩ := hok
    subst ht
    subst hresp
    exact ⟨get_etag_delete_all_keys s u v, by show e < s.count + 1; omega⟩
  · intro r t resp hok
    rw [deleteBackupKeySessionsRoute] at hok
    simp only [get_etag_delete_room_keys] at hok
    simp only [Except.ok.injEq, Prod.mk.injEq] at hok
    obtain ⟨ht, hresp⟩ := hok
    subst ht
    subst hresp
    exact ⟨get_etag_delete_room_keys s u v r, by show e < s.count + 1; omega⟩
  · intro r sess t resp hok
    rw [deleteBackupKeySessionRoute] at hok
    simp only [get_etag_delete_room_key] at hok
    simp only [Except.ok.injEq, Prod.mk.injEq] at hok
    obtain ⟨ht, hresp⟩ := hok
    subst ht
    subst hresp
    exact ⟨get_etag_delete_room_key s u v r sess, by show e < s.count + 1; omega⟩
  · intro alg t hok
    rw [updateBackupRoute] at hok
    cases hu : alLookup (u, v) s.algorithms with
    | none =>
      simp only [update_backup, hu] at hok
      exact absurd hok (by simp)
    | some a =>
      simp only [update_backup, hu] at hok
      simp only [Except.ok.injEq] at hok
      subst hok
      exact ⟨alLookup_alInsert_self (u, v) (s.count + 1) s.etags, by omega⟩

/-- C3 witness: in `sOne` (version 1, etag 1), the delete-all-keys route
succeeds and moves the etag of version 1 from 1 to 2. -/
theorem C3_etag_changes_witness :
    get_etag (delete_all_keys sOne "u" 1) "u" 1 = some 2 ∧ (1 : Nat) < 2 :=
  (C3_etag_changes sOne "u" 1 1 rfl (by decide)).2.2.2.1
    (delete_all_keys sOne "u" 1) { count := 0, etag := 2 } rfl

/-- C9: every response that reports a key count (get-latest, get-backup, and
the add/delete key routes) reports the stored key count truncated to 32 bits,
i.e. `count_keys mod 2 ^ 32`, of the state the response describes. -/
theorem C9_count_reported_mod (s : KeyBackups) (u : String) (v : Nat)
    (ks : List ((String × String) × String)) (r : String)
    (rsess : List (String × String)) (sess d : String) :
    (∀ t resp, getBackupRoute s u v = Except.ok (t, resp) →
      resp.count = count_keys s u v % 2 ^ 32)
    ∧ (∀ t resp, getLatestBackupRoute s u = Except.ok (t, resp) →
      resp.count = count_keys s u resp.version % 2 ^ 32)
    ∧ (∀ t resp, addBackupKeysRoute s u v ks = Except.ok (t, resp) →
      resp.count = count_keys t u v % 2 ^ 32)
    ∧ (∀ t resp, addBackupKeySessionsRoute s u v r rsess = Except.ok (t, resp) →
      resp.count = count_keys t u v % 2 ^ 32)
    ∧ (∀ t resp, addBackupKeySessionRoute s u v r sess d = Except.ok (t, resp) →
      resp.count = count_keys t u v % 2 ^ 32)
    ∧ (∀ t resp, deleteBackupKeysRoute s u v = Except.ok (t, resp) →
      resp.count = count_keys t u v % 2 ^ 32)
    ∧ (∀ t resp, deleteBackupKeySessionsRoute s u v r = Except.ok (t, resp) →
      resp.count = count_keys t u v % 2 ^ 32)
    ∧ (∀ t resp, deleteBackupKeySessionRoute s u v r sess = Except.ok (t, resp) →
      resp.count = count_keys t u v % 2 ^ 32) := by
  refine ⟨?_, ?_, ?_, ?_, ?_, ?_, ?_, ?_⟩
  · intro t resp hok
    rw [getBackupRoute] at hok
    split at hok
    · exact absurd hok (by simp)
    · split at hok
      · exact absurd hok (by simp)
      · simp only [Except.ok.injEq, Prod.mk.injEq] at hok
        obtain ⟨-, hresp⟩ := hok
        subst hresp
        rfl
  · intro t resp hok
    rw [getLatestBackupRoute] at hok
    split at hok
    · exact absurd hok (by simp)
    · split at hok
      · exact absurd hok (by simp)
      · simp only [Except.ok.injEq, Prod.mk.injEq] at hok
        obtain ⟨-, hresp⟩ := hok
        subst hresp
        rfl
  · intro t resp hok
    rw [addBackupKeysRoute] at hok
    split at hok
    · exact absurd hok (by simp)
    · cases he : get_etag (List.foldl (fun st e => add_key st u v e.1.1 e.1.2 e.2) s ks) u v with
      | none =>
        simp only [he] at hok
        exact absurd hok (by simp)
      | some e0 =>
        simp only [he] at hok
        simp only [Except.ok.injEq, Prod.mk.injEq] at hok
        obtain ⟨ht, hresp⟩ := hok
        subst ht
        subst hresp
        rfl
  · intro t resp hok
    rw [addBackupKeySessionsRoute] at hok
    split at hok
    · exact absurd hok (by simp)
    · cases he : get_etag (List.foldl (fun st e => add_key st u v r e.1 e.2) s rsess) u v with
      | none =>
        simp only [he] at hok
        exact absurd hok (by simp)
      | some e0 =>
        simp only [he] at hok
        simp only [Except.ok.injEq, Prod.mk.injEq] at hok
        obtain ⟨ht, hresp⟩ := hok
        subst ht
        subst hresp
        rfl
  · intro t resp hok
    rw [addBackupKeySessionRoute] at hok
    split at hok
    · exact absurd hok (by simp)
    · simp only [get_etag_add_key] at hok
      simp only [Except.ok.injEq, Prod.mk.injEq] at hok
      obtain ⟨ht, hresp⟩ := hok
      subst ht
      subst hresp
      rfl
  · intro t resp hok
    rw [deleteBackupKeysRoute] at hok
    split at hok
    · exact absurd hok (by simp)
    · simp only [Except.ok.injEq, Prod.mk.injEq] at hok
      obtain ⟨ht, hresp⟩ := hok
      subst ht
      subst hresp
      rfl
  · intro t resp hok
    rw [deleteBackupKeySessionsRoute] at hok
    split at hok
    · exact absurd hok (by simp)
    · simp only [Except.ok.injEq, Prod.mk.injEq] at hok
      obtain ⟨ht, hresp⟩ := hok
      subst ht
      subst hresp
      rfl
  · intro t resp hok
    rw [deleteBackupKeySessionRoute] at hok
    split at hok
    · exact absurd hok (by simp)
    · simp only [Except.ok.injEq, Prod.mk.injEq] at hok
      obtain ⟨ht, hresp⟩ := hok
      subst ht
      subst hresp
      rfl

/-- C9 witness: in `sOne`, the delete-all-keys response reports the stored
count of version 1 reduced mod `2 ^ 32`. -/
theorem C9_count_reported_mod_witness :
    (0 : Nat) = count_keys (delete_all_keys sOne "u" 1) "u" 1 % 2 ^ 32 :=
  (C9_count_reported_mod sOne "u" 1 [] "r" [] "s1" "d").2.2.2.2.2.1
    (delete_all_keys sOne "u" 1) { count := 0, etag := 2 } rfl

/-- C6 (amended): after any finite sequence of put/delete operations on a
version (starting from a state with pairwise distinct stored key identities,
as every reachable state is), `count_keys` equals the number of distinct
(room, session) pairs currently stored under that version; the add/delete
responses report that count reduced mod `2 ^ 32` (hence equal to it whenever
it is below `2 ^ 32`). -/
theorem C6_count_accuracy (s : KeyBackups) (u : String) (v : Nat) (ops : List KOp)
    (h : KeysNodup s) :
    count_keys (applyKOps s u v ops) u v
      = ((sessionPairs (applyKOps s u v ops) u v).dedup).length
    ∧ (∀ t resp, deleteBackupKeysRoute (applyKOps s u v ops) u v = Except.ok (t, resp) →
        resp.count = ((sessionPairs t u v).dedup).length % 2 ^ 32)
    ∧ (∀ r t resp, deleteBackupKeySessionsRoute (applyKOps s u v ops) u v r
        = Except.ok (t, resp) →
        resp.count = ((sessionPairs t u v).dedup).length % 2 ^ 32)
    ∧ (∀ r sess t resp, deleteBackupKeySessionRoute (applyKOps s u v ops) u v r sess
        = Except.ok (t, resp) →
        resp.count = ((sessionPairs t u v).dedup).length % 2 ^ 32)
    ∧ (∀ r sess d t resp, addBackupKeySessionRoute (applyKOps s u v ops) u v r sess d
        = Except.ok (t, resp) →
        resp.count = ((sessionPairs t u v).dedup).length % 2 ^ 32)
    ∧ (∀ ks t resp, addBackupKeysRoute (applyKOps s u v ops) u v ks = Except.ok (t, resp) →
        resp.count = ((sessionPairs t u v).dedup).length % 2 ^ 32)
    ∧ (∀ r rsess t resp, addBackupKeySessionsRoute (applyKOps s u v ops) u v r rsess
        = Except.ok (t, resp) →
        resp.count = ((sessionPairs t u v).dedup).length % 2 ^ 32) := by
  have hB : KeysNodup (applyKOps s u v ops) := keysNodup_applyKOps u v ops h
  refine ⟨count_keys_eq_dedup u v hB, ?_, ?_, ?_, ?_, ?_, ?_⟩
  · intro t resp hok
    rw [deleteBackupKeysRoute] at hok
    simp only [get_etag_delete_all_keys] at hok
    simp only [Except.ok.injEq, Prod.mk.injEq] at hok
    obtain ⟨ht, hresp⟩ := hok
    subst ht
    subst hresp
    show u32 (count_keys (delete_all_keys (applyKOps s u v ops) u v) u v) = _
    rw [← count_keys_eq_dedup u v (keysNodup_delete_all_keys u v hB)]
    rfl
  · intro r t resp hok
    rw [deleteBackupKeySessionsRoute] at hok
    simp only [get_etag_delete_room_keys] at hok
    simp only [Except.ok.injEq, Prod.mk.injEq] at hok
    obtain ⟨ht, hresp⟩ := hok
    subst ht
    subst hresp
    show u32 (count_keys (delete_room_keys (applyKOps s u v ops) u v r) u v) = _
    rw [← count_keys_eq_dedup u v (keysNodup_delete_room_keys u v r hB)]
    rfl
  · intro r sess t resp hok
    rw [deleteBackupKeySessionRoute] at hok
    simp only [get_etag_delete_room_key] at hok
    simp only [Except.ok.injEq, Prod.mk.injEq] at hok
    obtain ⟨ht, hresp⟩ := hok
    subst ht
    subst hresp
    show u32 (count_keys (delete_room_key (applyKOps s u v ops) u v r sess) u v) = _
    rw [← count_keys_eq_dedup u v (keysNodup_delete_room_key u v r sess hB)]
    rfl
  · intro r sess d t resp hok
    rw [addBackupKeySessionRoute] at hok
    split at hok
    · exact absurd hok (by simp)
    · simp only [get_etag_add_key] at hok
      simp only [Except.ok.injEq, Prod.mk.injEq] at hok
      obtain ⟨ht, hresp⟩ := hok
      subst ht
      subst hresp
      show u32 (count_keys (add_key (applyKOps s u v ops) u v r sess d) u v) = _
      rw [← count_keys_eq_dedup u v (keysNodup_add_key u v r sess d hB)]
      rfl
  · intro ks t resp hok
    rw [addBackupKeysRoute] at hok
    split at hok
    · exact absurd hok (by simp)
    · cases he : get_etag
          (List.foldl (fun st e => add_key st u v e.1.1 e.1.2 e.2) (applyKOps s u v ops) ks)
          u v with
      | none =>
        simp only [he] at hok
        exact absurd hok (by simp)
      | some e0 =>
        simp only [he] at hok
        simp only [Except.ok.injEq, Prod.mk.injEq] at hok
        obtain ⟨ht, hresp⟩ := hok
        subst ht
        subst hresp
        have hnd : KeysNodup
            (List.foldl (fun st e => add_key st u v e.1.1 e.1.2 e.2) (applyKOps s u v ops) ks) :=
          keysNodup_foldl_add u v
            (fun p : (String × String) × String => (p.1.1, p.1.2, p.2)) ks _ hB
        show u32 (count_keys
            (List.foldl (fun st e => add_key st u v e.1.1 e.1.2 e.2) (applyKOps s u v ops) ks)
            u v) = _
        rw [← count_keys_eq_dedup u v hnd]
        rfl
  · intro r rsess t resp hok
    rw [addBackupKeySessionsRoute] at hok
    split at hok
    · exact absurd hok (by simp)
    · cases he : get_etag
          (List.foldl (fun st e => add_key st u v r e.1 e.2) (applyKOps s u v ops) rsess)
          u v with
      | none =>
        simp only [he] at hok
        exact absurd hok (by simp)
      | some e0 =>
        simp only [he] at hok
        simp only [Except.ok.injEq, Prod.mk.injEq] at hok
        obtain ⟨ht, hresp⟩ := hok
        subst ht
        subst hresp
        have hnd : KeysNodup
            (List.foldl (fun st e => add_key st u v r e.1 e.2) (applyKOps s u v ops) rsess) :=
          keysNodup_foldl_add u v
            (fun p : String × String => (r, p.1, p.2)) rsess _ hB
        show u32 (count_keys
            (List.foldl (fun st e => add_key st u v r e.1 e.2) (applyKOps s u v ops) rsess)
            u v) = _
        rw [← count_keys_eq_dedup u v hnd]
        rfl

/-- C6 witness: in `sOne`, after one put, `count_keys` of version 1 equals
the number of distinct (room, session) pairs stored under it. -/
theorem C6_count_accuracy_witness :
    count_keys (applyKOps sOne "u" 1 [KOp.put "r" "s1" "d"]) "u" 1
      = ((sessionPairs (applyKOps sOne "u" 1 [KOp.put "r" "s1" "d"]) "u" 1).dedup).length :=
  (C6_count_accuracy sOne "u" 1 [KOp.put "r" "s1" "d"] (by decide)).1

/-- C6 counterexample: starting from `sOne` and applying the operation
sequence `bigOps` (`2 ^ 32` puts of distinct sessions) followed by a
per-session delete, the store holds `2 ^ 32` distinct (room, session) pairs
under version 1, but the delete response reports a count of 0 (`2 ^ 32`
truncated by the `as u32` cast); this refutes the claim that the count
returned in add/delete responses always equals the number of distinct pairs
currently stored. -/
theorem C6_counterexample :
    count_keys bigState "u" 1 = 2 ^ 32
    ∧ ((sessionPairs bigState "u" 1).dedup).length = 2 ^ 32
    ∧ respCountOf (deleteBackupKeySessionRoute bigState "u" 1 "r2" "x") = some 0
    ∧ (stateOf (deleteBackupKeySessionRoute bigState "u" 1 "r2" "x")).map
        (fun t => ((sessionPairs t "u" 1).dedup).length) = some (2 ^ 32)
    ∧ respCountOf (deleteBackupKeySessionRoute bigState "u" 1 "r2" "x")
        ≠ (stateOf (deleteBackupKeySessionRoute bigState "u" 1 "r2" "x")).map
            (fun t => ((sessionPairs t "u" 1).dedup).length) := by
  have hkeys : (delete_room_key bigState "u" 1 "r2" "x").keys = bigState.keys := by
    simp only [delete_room_key]
    exact alErase_eq_self get_session_bigState_r2
  have hcnt : count_keys (delete_room_key bigState "u" 1 "r2" "x") "u" 1 = 2 ^ 32 :=
    (count_keys_keys_eq "u" 1 hkeys).trans count_bigState
  have hdedup : ((sessionPairs bigState "u" 1).dedup).length = 2 ^ 32 :=
    (count_keys_eq_dedup "u" 1 keysNodup_bigState).symm.trans count_bigState
  have hroute : deleteBackupKeySessionRoute bigState "u" 1 "r2" "x"
      = Except.ok (delete_room_key bigState "u" 1 "r2" "x",
          { count := u32 (count_keys (delete_room_key bigState "u" 1 "r2" "x") "u" 1),
            etag := bigState.count + 1 }) := by
    rw [deleteBackupKeySessionRoute]
    simp only [get_etag_delete_room_key]
  have hu32 : u32 (count_keys (delete_room_key bigState "u" 1 "r2" "x") "u" 1) = 0 := by
    rw [hcnt, u32, Nat.mod_self]
  refine ⟨count_bigState, hdedup, ?_, ?_, ?_⟩
  · rw [hroute, respCountOf, hu32]
  · rw [hroute]
    show some ((sessionPairs (delete_room_key bigState "u" 1 "r2" "x") "u" 1).dedup).length
        = some (2 ^ 32)
    rw [sessionPairs_keys_eq "u" 1 hkeys, hdedup]
  · rw [hroute]
    show some (u32 (count_keys (delete_room_key bigState "u" 1 "r2" "x") "u" 1))
        ≠ some ((sessionPairs (delete_room_key bigState "u" 1 "r2" "x") "u" 1).dedup).length
    rw [hu32, sessionPairs_keys_eq "u" 1 hkeys, hdedup]
    intro hc
    have := Option.some.inj hc
    exact absurd this.symm (by positivity)

/-- C1 witness: in `sTwo` (latest version 2), the bulk add targeting version
1 fails with `InvalidParam` while the same call targeting version 2 succeeds. -/
theorem C1_latest_guard_witness :
    addBackupKeysRoute sTwo "u" 1 [(("r", "s1"), "d")] = Except.error Err.invalidParam
    ∧ (addBackupKeysRoute sTwo "u" 2 [(("r", "s1"), "d")]).isOk = true :=
  ⟨(C1_latest_guard sTwo "u" 1 2 [(("r", "s1"), "d")] "r" [("s1", "d")] "s1" "d" rfl
      (by decide) (by decide) (by decide)).1,
    (C1_latest_guard sTwo "u" 1 2 [(("r", "s1"), "d")] "r" [("s1", "d")] "s1" "d" rfl
      (by decide) (by decide) (by decide)).2.2.2.2.2.2.1⟩

end Backup
